import Mathlib

/-!
Verification of the temporal ledger and reconciliation engine of
`landlab.components.species_evolution.species_evolution` (class `SpeciesEvolver`).

The Python source is shallowly embedded: Python strings are lists of characters,
`np.nan` record cells are `Option.none`, the `OrderedDict` record is an
association list preserving key insertion order, ledger tables are lists of
rows, and object identity is a natural-number handle.  Mutating methods become
pure functions from state to state; a raised Python exception becomes an error
value returned alongside the state reached at the raise point.
-/

namespace SpeciesEvolution

/-- Python strings are modeled as lists of characters. -/
abbrev PyStr := List Char

/-- Record cell: `none` models the missing-value sentinel `np.nan`;
`some v` models an actual scalar (scalars are abstracted to integers). -/
abbrev RVal := Option Int

/-- The record `self._record`: an `OrderedDict` mapping column names to lists of
cells, modeled as an association list in key insertion order.  The `time` column
is one of the keys. -/
abbrev Record := List (PyStr × List RVal)

/-- Column name `time`. -/
def timeKey : PyStr := ['t', 'i', 'm', 'e']

/-- Keys of the record, in insertion order (models `self._record.keys()`). -/
def recordKeys (rec : Record) : List PyStr := rec.map Prod.fst

/-- Cells of column `k` (empty when the column does not exist). -/
def recordCol (rec : Record) (k : PyStr) : List RVal :=
  match rec.find? (fun e => e.1 = k) with
  | some e => e.2
  | none => []

/-- Number of entries of the `time` column (models `len(self._record['time'])`). -/
def timeLen (rec : Record) : Nat := (recordCol rec timeKey).length

/-- Appends `v` to column `k` (models `self._record[key].append(value)`; record
keys are unique, so updating every entry with key `k` updates the one entry). -/
def recordAppend (rec : Record) (k : PyStr) (v : RVal) : Record :=
  rec.map (fun e => if e.1 = k then (e.1, e.2 ++ [v]) else e)

/-- Embeds `SpeciesEvolver._insert_record_add_on`: for each key/value pair of
the add-on (in insertion order), a key absent from the record is first bound to
`[np.nan] * (len(record['time']) - 1)`, and then the value is appended to the
key's column.  Columns of the record that do not occur in the add-on are left
untouched. -/
def insertRecordAddOn (addOn : List (PyStr × Int)) (rec : Record) : Record :=
  addOn.foldl
    (fun r kv =>
      let r' :=
        if kv.1 ∈ recordKeys r then r
        else r ++ [(kv.1, List.replicate (timeLen r - 1) none)]
      recordAppend r' kv.1 (some kv.2))
    rec

/-- Ledger row of `self._zones` / `self._species`: appearance time, latest
extant time, and the tracked object (an identity handle). -/
structure LedgerRow (α : Type) where
  timeAppeared : Int
  latestTime : Int
  obj : α
deriving DecidableEq

/-- Comparison `x <= t` where `t` may be `np.nan` (`none`); any comparison with
`nan` is false. -/
def leTimeQ (x : Int) : Option Int → Bool
  | none => false
  | some t => x ≤ t

/-- Comparison `x >= t` where `t` may be `np.nan` (`none`). -/
def geTimeQ (x : Int) : Option Int → Bool
  | none => false
  | some t => t ≤ x

/-- Embeds `SpeciesEvolver._objects_at_time`: builds the two comparison masks
over the `time_appeared` and `latest_time` columns, conjoins them, and selects
the `object` column by the resulting boolean mask. -/
def objectsAtTime {α : Type} (t : Option Int) (rows : List (LedgerRow α)) : List α :=
  let appeared := rows.map (·.timeAppeared)
  let latest := rows.map (·.latestTime)
  let extantMask := (appeared.zip latest).map (fun p => leTimeQ p.1 t && geTimeQ p.2 t)
  ((rows.map (·.obj)).zip extantMask).filterMap (fun p => if p.2 then some p.1 else none)

/-- Registry `self._species_ids`: a Python dict from clade name to the highest
species number issued for that clade, `none` before any number is issued.
Modeled as an association list in key insertion order. -/
abbrev SpeciesIds := List (PyStr × Option Nat)

/-- Keys of the registry (models `list(self._species_ids.keys())`). -/
def usedCladeNames (ids : SpeciesIds) : List PyStr := ids.map Prod.fst

/-- Assignment `d[k] = v` on a Python dict modeled as an association list: an
existing key keeps its position and gets the new value, a new key is appended. -/
def dictSet {κ ν : Type} [DecidableEq κ] (d : List (κ × ν)) (k : κ) (v : ν) : List (κ × ν) :=
  if k ∈ d.map Prod.fst then d.map (fun e => if e.1 = k then (e.1, v) else e)
  else d ++ [(k, v)]

/-- Value stored for key `c` (`none` when `c` is not a key). -/
def dictFind {κ ν : Type} [DecidableEq κ] (d : List (κ × ν)) (c : κ) : Option ν :=
  (d.find? (fun e => e.1 = c)).map (·.2)

/-- Characters of `string.ascii_uppercase`. -/
def uppercaseAlphabet : List Char :=
  ['A', 'B', 'C', 'D', 'E', 'F', 'G', 'H', 'I', 'J', 'K', 'L', 'M',
   'N', 'O', 'P', 'Q', 'R', 'S', 'T', 'U', 'V', 'W', 'X', 'Y', 'Z']

/-- Names `list(ascii_uppercase)`: the single-letter strings `A` … `Z`. -/
def alphabetNames : List PyStr := uppercaseAlphabet.map (fun c => [c])

/-- Embeds `[''.join(s) for s in product(ascii_uppercase, repeat=size)]`: all
words of length `size` over the uppercase alphabet, in lexicographic
Cartesian-product order (the last letter varies fastest). -/
def prodRepeat : Nat → List PyStr
  | 0 => [[]]
  | n + 1 => uppercaseAlphabet.flatMap (fun c => (prodRepeat n).map (fun t => c :: t))

/-- Lexicographic comparison of Python strings, the ascending order used by
`np.setdiff1d` when it sorts its result. -/
def lexLe : PyStr → PyStr → Bool
  | [], _ => true
  | _ :: _, [] => false
  | a :: as, b :: bs => if a = b then lexLe as bs else decide (a < b)

/-- Propositional form of `lexLe`. -/
def LexLe (a b : PyStr) : Prop := lexLe a b = true

instance : DecidableRel LexLe := fun a b => inferInstanceAs (Decidable (lexLe a b = true))

/-- Boolean check that successive elements are in `lexLe` order. -/
def lexChain : List PyStr → Bool
  | [] => true
  | [_] => true
  | a :: b :: t => lexLe a b && lexChain (b :: t)

/-- Embeds `np.setdiff1d(a, b)`: the sorted unique values of `a` that are not
in `b`. -/
def setdiff1d (a b : List PyStr) : List PyStr :=
  ((a.filter (fun x => decide (x ∉ b))).dedup).insertionSort LexLe

/-- Embeds the `while len(potential_name) == 0` loop of
`_get_unused_clade_name`: name lengths `size`, `size + 1`, … are tried until
`np.setdiff1d` of the length-`size` product with the used names is nonempty.
The recursion is bounded by a fuel value; the caller passes a fuel proved
below to be large enough, so the fuel-exhausted base case is never reached. -/
def cladeNameLoop (used : List PyStr) : Nat → Nat → List PyStr
  | 0, _ => []
  | fuel + 1, size =>
    let p := setdiff1d (prodRepeat size) used
    if p.isEmpty then cladeNameLoop used fuel (size + 1) else p

/-- Embeds `SpeciesEvolver._get_unused_clade_name`: take the alphabetically
first name of `np.setdiff1d(alphabet, used_name)`, falling back to the
while loop over longer products when all single letters are used; the chosen
name is then registered with `self._species_ids[clade_name] = None`. -/
def getUnusedCladeName (ids : SpeciesIds) : PyStr × SpeciesIds :=
  let used := usedCladeNames ids
  let p0 := setdiff1d alphabetNames used
  let p := if p0.isEmpty then cladeNameLoop used (used.length + 2) 1 else p0
  let cladeName := p.headD []
  (cladeName, dictSet ids cladeName none)

/-- Embeds `SpeciesEvolver._get_unused_species_id`: an uninitialized clade
counter becomes 0, an initialized one is incremented, and the pair
`(clade_name, counter)` is returned.  `none` models the `KeyError` the source
raises when `clade_name` was never registered. -/
def getUnusedSpeciesId (cladeName : PyStr) (ids : SpeciesIds) :
    Option ((PyStr × Nat) × SpeciesIds) :=
  match dictFind ids cladeName with
  | none => none
  | some none => some ((cladeName, 0), dictSet ids cladeName (some 0))
  | some (some k) => some ((cladeName, k + 1), dictSet ids cladeName (some (k + 1)))

/-- Trace of `n` successive `_get_unused_clade_name` calls: the returned names
in call order, with the final registry state. -/
def cladeCalls : Nat → SpeciesIds → List PyStr × SpeciesIds
  | 0, ids => ([], ids)
  | n + 1, ids =>
    let r := getUnusedCladeName ids
    let rest := cladeCalls n r.2
    (r.1 :: rest.1, rest.2)

/-- Trace of `n` successive `_get_unused_species_id` calls for one clade: the
returned identifier pairs in call order, with the final registry state (a
`KeyError` stops the trace). -/
def speciesIdCalls (cladeName : PyStr) : Nat → SpeciesIds → List (PyStr × Nat) × SpeciesIds
  | 0, ids => ([], ids)
  | n + 1, ids =>
    match getUnusedSpeciesId cladeName ids with
    | none => ([], ids)
    | some (sid, ids') =>
      let rest := speciesIdCalls cladeName n ids'
      (sid :: rest.1, rest.2)

/-- An allocator operation: a clade-name allocation, or a species-number
allocation for a given clade. -/
inductive AllocOp where
  | clade : AllocOp
  | species : PyStr → AllocOp

/-- One allocator operation on the registry, together with the identifier
pairs it issues (a clade allocation issues a name but no pair; a species
allocation on an unknown clade raises `KeyError` in the source and issues
nothing). -/
def allocStep (st : SpeciesIds) : AllocOp → SpeciesIds × List (PyStr × Nat)
  | .clade => ((getUnusedCladeName st).2, [])
  | .species c =>
    match getUnusedSpeciesId c st with
    | none => (st, [])
    | some (sid, st') => (st', [sid])

/-- Runs a sequence of allocator operations from the fresh registry `{}`,
collecting every issued `(clade, number)` pair in issue order. -/
def allocRun (ops : List AllocOp) : SpeciesIds × List (PyStr × Nat) :=
  ops.foldl (fun acc op => ((allocStep acc.1 op).1, acc.2 ++ (allocStep acc.1 op).2)) ([], [])

/-- Soundness bound relating the registry to the pairs issued so far: every
issued pair's clade has an initialized counter at least the issued number. -/
def issuedBound (st : SpeciesIds) (issued : List (PyStr × Nat)) : Prop :=
  ∀ p ∈ issued, ∃ k, dictFind st p.1 = some (some k) ∧ p.2 ≤ k

/-- First-occurrence deduplication: models the conversion `list(set(xs))` of a
Python collection of identity-compared objects (set iteration order is modeled
as first-occurrence order). -/
def pyDedup {α : Type} [DecidableEq α] : List α → List α
  | [] => []
  | a :: t => a :: (pyDedup t).filter (fun x => decide (x ≠ a))

/-- Embeds `SpeciesEvolver._object_set_difference`: partitions the (set of the)
input objects into those already present in the ledger's object column and
those that are new. -/
def objectSetDifference {α : Type} [DecidableEq α] (objects : List α) (ledgerObjs : List α) :
    List α × List α :=
  let objs := pyDedup objects
  (objs.filter (fun o => decide (o ∈ ledgerObjs)), objs.filter (fun o => decide (o ∉ ledgerObjs)))

/-- Embeds `lst['latest_time'][lst['object'].index(z)] = time`: sets the
`latest_time` of the first row holding object `o`. -/
def updateRowLatest {α : Type} [DecidableEq α] (time : Int) :
    List (LedgerRow α) → α → List (LedgerRow α)
  | [], _ => []
  | r :: rs, o =>
    if r.obj = o then { r with latestTime := time } :: rs
    else r :: updateRowLatest time rs o

/-- Embeds `SpeciesEvolver._update_zone_data_structure`: rows of objects in the
input collection get `latest_time = time`; objects not yet tracked are appended
as new rows with `time_appeared = latest_time = time`. -/
def updateZoneDataStructure {α : Type} [DecidableEq α] (time : Int) (zonesAtTime : List α)
    (rows : List (LedgerRow α)) : List (LedgerRow α) :=
  let d := objectSetDifference zonesAtTime (rows.map (·.obj))
  let rows1 := d.1.foldl (updateRowLatest time) rows
  rows1 ++ d.2.map (fun o => ⟨time, time, o⟩)

/-- Row of the species table `self._species`: clade, species number,
appearance time, latest extant time, and the species object (identity handle). -/
structure SpRow where
  clade : PyStr
  num : Nat
  timeAppeared : Int
  latestTime : Int
  obj : Nat
deriving DecidableEq

/-- Embeds the `latest_time` in-place update of
`_update_species_data_structure` (first occurrence of the object). -/
def updateSpRowLatest (time : Int) : List SpRow → Nat → List SpRow
  | [], _ => []
  | r :: rs, o =>
    if r.obj = o then { r with latestTime := time } :: rs
    else r :: updateSpRowLatest time rs o

/-- Reads `s.identifier` for each new species from the attribute store; `none`
models the `TypeError` raised if some species has no identifier assigned. -/
def resolveIds (ss : List Nat) (idMap : List (Nat × (PyStr × Nat))) :
    Option (List (Nat × (PyStr × Nat))) :=
  match ss with
  | [] => some []
  | s :: rest =>
    match dictFind idMap s, resolveIds rest idMap with
    | some sid, some tail => some ((s, sid) :: tail)
    | _, _ => none

/-- Embeds `SpeciesEvolver._update_species_data_structure`: already tracked
species get `latest_time = time`; new species are appended as rows carrying
their identifier's clade and number with `time_appeared = latest_time = time`. -/
def updateSpeciesDataStructure (time : Int) (speciesAtTime : List Nat)
    (idMap : List (Nat × (PyStr × Nat))) (rows : List SpRow) : Option (List SpRow) :=
  let d := objectSetDifference speciesAtTime (rows.map (·.obj))
  let rows1 := d.1.foldl (updateSpRowLatest time) rows
  match resolveIds d.2 idMap with
  | none => none
  | some infos =>
    some (rows1 ++ infos.map (fun i => ⟨i.2.1, i.2.2, time, time, i.1⟩))

/-- A zone object: an identity handle plus the back-reference `_manager`
(the index of the owning manager in `self._zone_managers`). -/
structure PyZone where
  zid : Nat
  manager : Nat
deriving DecidableEq

/-- A species object as passed to `introduce_species`: an identity handle and
the zones it occupies (`species._zones`). -/
structure PySpecies where
  sid : Nat
  zones : List Nat
deriving DecidableEq

/-- Actual time values of the record's `time` column. -/
def timesOf (rec : Record) : List Int := (recordCol rec timeKey).filterMap (fun v => v)

/-- Embeds Python's `max` on the `time` column (the record always holds at
least the initial time, so the empty case is unreachable). -/
def timesMax (l : List Int) : Int :=
  match l with
  | [] => 0
  | x :: xs => xs.foldl max x

/-- State owned by one `SpeciesEvolver` instance: the record, the species and
zone tables, the identifier registry, the identifier attribute store of all
species objects, and the number of zone managers. -/
structure SE where
  record : Record
  species : List SpRow
  zones : List (LedgerRow PyZone)
  speciesIds : SpeciesIds
  idMap : List (Nat × (PyStr × Nat))
  nManagers : Nat
deriving DecidableEq

/-- Failure modes of `introduce_species`: the two documented exceptions, plus
an internal marker for branches proved unreachable below. -/
inductive IntroErr where
  | duplicateIntroduction
  | unzonedSpecies
  | internalError
deriving DecidableEq

/-- Embeds `SpeciesEvolver.introduce_species`: an already tracked species or a
species with no zones raises before any state is touched; otherwise a fresh
clade name and the number-0 identifier are allocated, assigned to the species,
and the species table is updated at the latest recorded time. -/
def introduceSpecies (st : SE) (sp : PySpecies) : SE × Option IntroErr :=
  if sp.sid ∈ st.species.map (·.obj) then (st, some .duplicateIntroduction)
  else if sp.zones.isEmpty then (st, some .unzonedSpecies)
  else
    let r := getUnusedCladeName st.speciesIds
    match getUnusedSpeciesId r.1 r.2 with
    | none => (st, some .internalError)
    | some (sid, ids2) =>
      let idMap2 := dictSet st.idMap sp.sid sid
      let time := timesMax (timesOf st.record)
      match updateSpeciesDataStructure time [sp.sid] idMap2 st.species with
      | none => (st, some .internalError)
      | some rows2 => ({ st with species := rows2, speciesIds := ids2, idMap := idMap2 }, none)

/-- A Python value as it can occur inside an identifier tuple. -/
inductive PyVal where
  | vstr : PyStr → PyVal
  | vint : Int → PyVal
  | vbool : Bool → PyVal
  | vnone : PyVal
deriving DecidableEq

/-- A key passed to `species_with_identifier`: a tuple, a string, an integer,
or any other type (`type(key)` equality sends booleans and anything else to
the final `else` branch). -/
inductive PyKey where
  | tup : List PyVal → PyKey
  | str : PyStr → PyKey
  | int : Int → PyKey
  | other : PyKey
deriving DecidableEq

/-- Exceptions `species_with_identifier` can raise. -/
inductive QueryErr where
  | typeError
  | indexError
deriving DecidableEq

/-- Models `isinstance(x, str)`. -/
def pyValIsStr : PyVal → Bool
  | .vstr _ => true
  | _ => false

/-- Models `isinstance(x, int)`; `bool` is a subclass of `int` in Python. -/
def pyValIsInt : PyVal → Bool
  | .vint _ => true
  | .vbool _ => true
  | _ => false

/-- Integer value of a Python int-like value (`True == 1`, `False == 0`). -/
def pyValAsInt : PyVal → Int
  | .vint n => n
  | .vbool b => if b then 1 else 0
  | _ => 0

/-- Embeds `SpeciesEvolver.species_with_identifier` on the species table.  A
tuple key has its elements 0 and 1 read before the length/type validation, so
a tuple shorter than 2 raises `IndexError` rather than the validation
`TypeError`; a failed validation or a non-tuple/str/int key raises
`TypeError`; otherwise the matching rows are returned, `none` when there is no
match. -/
def speciesWithIdentifier (rows : List SpRow) (key : PyKey) :
    Except QueryErr (Option (List SpRow)) :=
  match key with
  | .tup es =>
    match es[0]? with
    | none => .error .indexError
    | some clade =>
      match es[1]? with
      | none => .error .indexError
      | some num =>
        if es.length = 2 ∧ pyValIsStr clade = true ∧ pyValIsInt num = true then
          let sOut := rows.filter (fun r =>
            decide (PyVal.vstr r.clade = clade) && decide ((r.num : Int) = pyValAsInt num))
          if sOut.isEmpty then .ok none else .ok (some sOut)
        else .error .typeError
  | .str c =>
    let sOut := rows.filter (fun r => decide (r.clade = c))
    if sOut.isEmpty then .ok none else .ok (some sOut)
  | .int n =>
    let sOut := rows.filter (fun r => decide ((r.num : Int) = n))
    if sOut.isEmpty then .ok none else .ok (some sOut)
  | .other => .error .typeError

/-- A child species object returned by `_evolve`: identity handle plus the
`parent_species` back-reference (`none` models a missing parent). -/
structure PyChild where
  sid : Nat
  parent : Option Nat
deriving DecidableEq

/-- A tick's add-on accumulator `defaultdict(float)`, as a dict of scalars. -/
abbrev AddOn := List (PyStr × Int)

/-- Modelled from the spec: the collaborator behavior consumed during one
tick.  The zone managers' zone-creation and path-reconciliation algorithms and
the species' evolution rule live outside the reviewed source file; per the
external-interface contract a manager exposes `_create_zones()` and
`_update_paths(time, prior_zones, new_zones, add_on)` returning destination
zones and possibly writing the accumulator, and a species exposes
`_evolve(time, dt, add_on)` returning child species with its `extant` flag
readable afterwards.  `create m` is manager `m`'s created zones; `updPaths`
takes the manager index, the time, that manager's prior and candidate zones,
and the accumulator; `evolve` takes the species handle, time, `dt`, and the
accumulator, and returns the `extant` flag, the children, and the updated
accumulator. -/
structure TickBehavior where
  create : Nat → List PyZone
  updPaths : Nat → Int → List PyZone → List PyZone → AddOn → (List PyZone × AddOn)
  evolve : Nat → Int → Int → AddOn → (Bool × List PyChild × AddOn)

/-- Embeds `SpeciesEvolver._get_prior_time`: `np.nan` (modeled `none`) when
fewer than two times are recorded, else the second-largest recorded time. -/
def getPriorTime (times : List Int) : Option Int :=
  if times.length < 2 then none
  else some ((times.insertionSort (· ≤ ·)).getD (times.length - 2) 0)

/-- View of a species row as a generic ledger row. -/
def spRowToLedger (r : SpRow) : LedgerRow Nat := ⟨r.timeAppeared, r.latestTime, r.obj⟩

/-- Embeds `species_at_time` on the species table: the handles of the species
extant at `t`, in table order. -/
def speciesAtTime (t : Option Int) (rows : List SpRow) : List Nat :=
  objectsAtTime t (rows.map spRowToLedger)

/-- Exceptions `run_one_step` can raise while processing species:
`attributeError` for `cs.parent_species.clade` on a parentless child,
`cladeError` when the parent species has no assigned identifier, `keyError`
for `_get_unused_species_id` on an unregistered clade, `identifierError` for
a new species without identifier at the table update. -/
inductive StepErr where
  | attributeError
  | cladeError
  | keyError
  | identifierError
deriving DecidableEq

/-- Accumulator of the species loop of `_get_surviving_species`: survivors in
append order, the add-on, the registry and attribute store (mutated when child
identifiers are assigned), and the observable call logs. -/
structure SpLoopAcc where
  survivors : List Nat
  addOn : AddOn
  speciesIds : SpeciesIds
  idMap : List (Nat × (PyStr × Nat))
  evolveLog : List Nat
  childLog : List PyChild
deriving DecidableEq

/-- Embeds the `for cs in child_species` identifier loop: each child's clade is
read from its parent's identifier (`cs.parent_species.clade`) and the child is
assigned `_get_unused_species_id(clade)`. -/
def assignChildIds (acc : SpLoopAcc) : List PyChild → SpLoopAcc × Option StepErr
  | [] => (acc, none)
  | c :: rest =>
    match c.parent with
    | none => (acc, some .attributeError)
    | some p =>
      match dictFind acc.idMap p with
      | none => (acc, some .cladeError)
      | some pid =>
        match getUnusedSpeciesId pid.1 acc.speciesIds with
        | none => (acc, some .keyError)
        | some (sid, ids2) =>
          assignChildIds { acc with speciesIds := ids2, idMap := dictSet acc.idMap c.sid sid } rest

/-- One evolve call's effect on the loop accumulator: the updated add-on, the
surviving species in append order (the evolved species when its `extant` flag
is set, then its children), and the call logs. -/
def speciesStepAcc (B : TickBehavior) (time dt : Int) (es : Nat) (acc : SpLoopAcc) : SpLoopAcc :=
  let r := B.evolve es time dt acc.addOn
  { acc with
    addOn := r.2.2
    survivors := acc.survivors ++ (if r.1 then [es] else []) ++ (r.2.1).map (·.sid)
    evolveLog := acc.evolveLog ++ [es]
    childLog := acc.childLog ++ r.2.1 }

/-- Embeds the `for es in extant_species` loop of `_get_surviving_species`:
each extant species is evolved (in table order); the species itself survives if
its `extant` flag is set, all children survive, and each child is assigned an
identifier in its parent's clade.  An exception stops the loop, keeping the
mutations already performed. -/
def speciesLoop (B : TickBehavior) (time dt : Int) :
    List Nat → SpLoopAcc → SpLoopAcc × Option StepErr
  | [], acc => (acc, none)
  | es :: rest, acc =>
    let acc1 := speciesStepAcc B time dt es acc
    match assignChildIds acc1 (B.evolve es time dt acc.addOn).2.1 with
    | (acc2, some e) => (acc2, some e)
    | (acc2, none) => speciesLoop B time dt rest acc2

/-- Time of the new tick: `max(self._record['time']) + dt`. -/
def tickTime (st : SE) (dt : Int) : Int := timesMax (timesOf st.record) + dt

/-- Embeds the per-manager loop of `_get_updated_zones`: managers are visited
in list order; each receives its own prior and candidate zones plus the shared
accumulator and contributes destination zones; the visit order is logged. -/
def zonePathsFold (B : TickBehavior) (time : Int) (priorZones newZones : List PyZone)
    (n : Nat) : List PyZone × AddOn × List Nat :=
  (List.range n).foldl
    (fun acc m =>
      let r := B.updPaths m time (priorZones.filter (fun z => decide (z.manager = m)))
        (newZones.filter (fun z => decide (z.manager = m))) acc.2.1
      (acc.1 ++ r.1, r.2, acc.2.2 ++ [m]))
    ([], [], [])

/-- Embeds the zone half of `run_one_step`: the time is appended to the
record, candidate zones are collected from all managers, paths are delegated
per manager, the accumulated add-on is merged into the record, and the zone
table is reconciled with the deduplicated destinations.  Returns the updated
state and the manager visit order. -/
def zonePhase (B : TickBehavior) (st : SE) (dt : Int) : SE × List Nat :=
  let time := tickTime st dt
  let rec1 := recordAppend st.record timeKey (some time)
  let newZones := (List.range st.nManagers).flatMap B.create
  let prior := getPriorTime (timesOf rec1)
  let priorZones := objectsAtTime prior st.zones
  let zp := zonePathsFold B time priorZones newZones st.nManagers
  let rec2 := insertRecordAddOn zp.2.1 rec1
  ({ st with
      record := rec2
      zones := updateZoneDataStructure time (pyDedup zp.1) st.zones }, zp.2.2)

/-- Observable call structure of one `run_one_step` call: manager visit order,
species evolve order, the children returned by the evolve calls actually made,
and whether the no-species warning was emitted. -/
structure CallLog where
  pathOrder : List Nat
  evolveOrder : List Nat
  childLog : List PyChild
  warned : Bool
deriving DecidableEq

/-- Embeds `SpeciesEvolver.run_one_step`: the zone phase always completes;
then, unless no species are tracked (non-fatal warning), the extant species
are evolved in table order, the species add-on is merged, and the species
table is reconciled with the survivors.  A raise during the species phase
yields the state reached at that point (species table untouched). -/
def runOneStep (B : TickBehavior) (st : SE) (dt : Int) : (SE × Option StepErr) × CallLog :=
  let time := tickTime st dt
  let z := zonePhase B st dt
  let st2 := z.1
  if st2.species.isEmpty then ((st2, none), ⟨z.2, [], [], true⟩)
  else
    let prior2 := getPriorTime (timesOf st2.record)
    let extant := speciesAtTime prior2 st2.species
    match speciesLoop B time dt extant ⟨[], [], st2.speciesIds, st2.idMap, [], []⟩ with
    | (acc, some e) =>
      (({ st2 with speciesIds := acc.speciesIds, idMap := acc.idMap }, some e),
        ⟨z.2, acc.evolveLog, acc.childLog, false⟩)
    | (acc, none) =>
      let rec3 := insertRecordAddOn acc.addOn st2.record
      match updateSpeciesDataStructure time acc.survivors acc.idMap st2.species with
      | none =>
        (({ st2 with
            record := rec3
            speciesIds := acc.speciesIds
            idMap := acc.idMap }, some .identifierError),
          ⟨z.2, acc.evolveLog, acc.childLog, false⟩)
      | some rows2 =>
        (({ st2 with
            record := rec3
            species := rows2
            speciesIds := acc.speciesIds
            idMap := acc.idMap }, none), ⟨z.2, acc.evolveLog, acc.childLog, false⟩)

/-- Column name `splits` of the misalignment scenario. -/
def splitsKey : PyStr := ['s', 'p', 'l', 'i', 't', 's']

/-- Column name `other` of the misalignment scenario. -/
def otherKey : PyStr := ['o', 't', 'h', 'e', 'r']

/-! ## Theorems -/

/-- Mask selection over ledger rows is the same as filtering the rows by the
extant-interval test and projecting the object column; in particular the output
preserves ledger insertion order. -/
theorem objectsAtTime_eq_filter {α : Type} (t : Option Int) (rows : List (LedgerRow α)) :
    objectsAtTime t rows =
      (rows.filter (fun r => leTimeQ r.timeAppeared t && geTimeQ r.latestTime t)).map (·.obj) := by
  induction rows with
  | nil => rfl
  | cons r rs ih =>
    simp only [objectsAtTime, List.map_cons, List.zip_cons_cons, List.filterMap_cons,
      List.filter_cons] at *
    by_cases h : (leTimeQ r.timeAppeared t && geTimeQ r.latestTime t) = true
    · simp only [h, if_pos, List.map_cons]
      exact congrArg (r.obj :: ·) ih
    · simp only [h, if_neg, Bool.false_eq_true, not_false_iff]
      simpa using ih

/-- Membership in the query result, characterized without uniqueness
assumptions: an object is returned at `t` exactly when some row carries it and
its interval contains `t`. -/
theorem mem_objectsAtTime {α : Type} (t : Option Int) (rows : List (LedgerRow α)) (o : α) :
    o ∈ objectsAtTime t rows ↔
      ∃ r ∈ rows, r.obj = o ∧ leTimeQ r.timeAppeared t = true ∧ geTimeQ r.latestTime t = true := by
  rw [objectsAtTime_eq_filter]
  simp only [List.mem_map, List.mem_filter, Bool.and_eq_true]
  constructor
  · rintro ⟨r, ⟨hr, h1, h2⟩, rfl⟩
    exact ⟨r, hr, rfl, h1, h2⟩
  · rintro ⟨r, hr, rfl, h1, h2⟩
    exact ⟨r, ⟨hr, h1, h2⟩, rfl⟩

/-- C2: for every tracked entity (a row of a ledger whose objects are pairwise
distinct) and every query time `t`, the entity's object is returned by
`_objects_at_time` for `t` if and only if `time_appeared ≤ t ≤ latest_time`,
and the returned objects are exactly the ledger rows passing the extant test,
projected in ledger insertion order. -/
theorem objects_at_time_iff_interval {α : Type} (t : Int) (rows : List (LedgerRow α))
    (r : LedgerRow α) (hnd : (rows.map (·.obj)).Nodup) (hr : r ∈ rows) :
    (r.obj ∈ objectsAtTime (some t) rows ↔ r.timeAppeared ≤ t ∧ t ≤ r.latestTime) ∧
      objectsAtTime (some t) rows =
        (rows.filter
          (fun r' => leTimeQ r'.timeAppeared (some t) && geTimeQ r'.latestTime (some t))).map
          (·.obj) := by
  refine ⟨?_, objectsAtTime_eq_filter _ _⟩
  rw [mem_objectsAtTime]
  constructor
  · rintro ⟨r', hr', hobj, h1, h2⟩
    have : r' = r := List.inj_on_of_nodup_map hnd hr' hr hobj
    subst this
    exact ⟨by simpa [leTimeQ] using h1, by simpa [geTimeQ] using h2⟩
  · rintro ⟨h1, h2⟩
    exact ⟨r, hr, rfl, by simpa [leTimeQ], by simpa [geTimeQ]⟩

/-- Witness for C2 at a concrete two-row ledger: the row `⟨0, 2, 5⟩` is extant
at time 1 while the row `⟨3, 4, 7⟩` is not returned at time 1. -/
theorem objects_at_time_iff_interval_witness :
    ((5 : Nat) ∈ objectsAtTime (some 1) [⟨0, 2, 5⟩, ⟨3, 4, 7⟩] ↔
      (0 : Int) ≤ 1 ∧ (1 : Int) ≤ 2) ∧
      objectsAtTime (some 1) ([⟨0, 2, 5⟩, ⟨3, 4, 7⟩] : List (LedgerRow Nat)) =
        (([⟨0, 2, 5⟩, ⟨3, 4, 7⟩] : List (LedgerRow Nat)).filter
          (fun r' => leTimeQ r'.timeAppeared (some 1) && geTimeQ r'.latestTime (some 1))).map
          (·.obj) :=
  objects_at_time_iff_interval 1 [⟨0, 2, 5⟩, ⟨3, 4, 7⟩] ⟨0, 2, 5⟩ (by decide) (by decide)

/-- C1: evaluation of `_insert_record_add_on` at the failing input.  The record
holds ticks 0, 1, 2 with column `splits` introduced at tick 1 and hence aligned
(backfilled with the sentinel for tick 0, length 2 = length of `time`).  Tick 2
was advanced and its add-on contributes only `other`: afterwards `splits` still
has 2 entries while `time` has 3, so a column that existed prior to the tick
received neither a real value nor the missing-value sentinel, and the columns
are no longer the same length as `time`.  The backfill half of the claim does
hold: merging a brand-new column into a record of four ticks yields three
leading sentinels and the contributed value. -/
theorem insert_record_add_on_misaligns :
    (recordCol
        (insertRecordAddOn [(otherKey, 7)]
          [(timeKey, [some 0, some 1, some 2]), (splitsKey, [none, some 4])])
        splitsKey).length = 2 ∧
      timeLen
        (insertRecordAddOn [(otherKey, 7)]
          [(timeKey, [some 0, some 1, some 2]), (splitsKey, [none, some 4])]) = 3 ∧
      recordCol
        (insertRecordAddOn [(splitsKey, 9)]
          [(timeKey, [some 0, some 1, some 2, some 3])]) splitsKey =
        [none, none, none, some 9] := by
  decide

theorem lexLe_trans {a b c : PyStr} (h1 : lexLe a b = true) (h2 : lexLe b c = true) :
    lexLe a c = true := by
  induction a generalizing b c with
  | nil => simp [lexLe]
  | cons x xs ih =>
    cases b with
    | nil => simp [lexLe] at h1
    | cons y ys =>
      cases c with
      | nil => simp [lexLe] at h2
      | cons z zs =>
        simp only [lexLe] at h1 h2 ⊢
        by_cases hxy : x = y
        · subst hxy
          rw [if_pos rfl] at h1
          by_cases hxz : x = z
          · subst hxz
            rw [if_pos rfl] at h2 ⊢
            exact ih h1 h2
          · rw [if_neg hxz] at h2 ⊢
            exact h2
        · rw [if_neg hxy] at h1
          have hlt1 : x < y := of_decide_eq_true h1
          by_cases hyz : y = z
          · subst hyz
            rw [if_neg hxy]
            exact decide_eq_true hlt1
          · rw [if_neg hyz] at h2
            have hlt2 : y < z := of_decide_eq_true h2
            have hlt : x < z := lt_trans hlt1 hlt2
            rw [if_neg (ne_of_lt hlt)]
            exact decide_eq_true hlt

instance : IsTrans PyStr LexLe := ⟨fun _ _ _ => lexLe_trans⟩

theorem mem_setdiff1d {x : PyStr} {a b : List PyStr} :
    x ∈ setdiff1d a b ↔ x ∈ a ∧ x ∉ b := by
  simp [setdiff1d, List.mem_insertionSort, List.mem_dedup, List.mem_filter,
    decide_eq_true_eq]

theorem nodup_prodRepeat (n : Nat) : (prodRepeat n).Nodup := by
  have hinj : ∀ c : Char, Function.Injective (fun t : PyStr => c :: t) := by
    intro c t t' h
    injection h
  induction n with
  | zero => simp [prodRepeat]
  | succ n ih =>
    rw [prodRepeat]
    rw [List.nodup_flatMap]
    refine ⟨fun c _ => ih.map (hinj c), ?_⟩
    have halph : uppercaseAlphabet.Nodup := by decide
    refine halph.imp ?_
    intro c c' hne x hx hx'
    simp only [List.mem_map] at hx hx'
    obtain ⟨t, _, rfl⟩ := hx
    obtain ⟨t', _, ht'⟩ := hx'
    injection ht' with hc ht
    exact hne hc.symm

theorem length_prodRepeat (n : Nat) : (prodRepeat n).length = 26 ^ n := by
  induction n with
  | zero => simp [prodRepeat]
  | succ n ih => simp [prodRepeat, uppercaseAlphabet, ih, pow_succ]; ring

theorem nodup_subset_length_le {l₁ l₂ : List PyStr} (h : l₁.Nodup) (hs : l₁ ⊆ l₂) :
    l₁.length ≤ l₂.length := by
  calc l₁.length = l₁.toFinset.card := by rw [List.toFinset_card_of_nodup h]
  _ ≤ l₂.toFinset.card := Finset.card_le_card
      (by intro x hx; simp only [List.mem_toFinset] at *; exact hs hx)
  _ ≤ l₂.length := List.toFinset_card_le l₂

theorem setdiff1d_ne_nil {a b : List PyStr} (hnd : a.Nodup) (hlen : b.length < a.length) :
    setdiff1d a b ≠ [] := by
  intro h
  have hperm := List.perm_insertionSort LexLe ((a.filter (fun x => decide (x ∉ b))).dedup)
  rw [setdiff1d] at h
  rw [h] at hperm
  have hded : (a.filter (fun x => decide (x ∉ b))).dedup = [] := hperm.nil_eq.symm
  have hfil : a.filter (fun x => decide (x ∉ b)) = [] := by
    rwa [List.dedup_eq_nil] at hded
  have hsub : a ⊆ b := by
    intro x hx
    by_contra hxb
    have hmem : x ∈ a.filter (fun x => decide (x ∉ b)) :=
      List.mem_filter.mpr ⟨hx, by simpa using hxb⟩
    rw [hfil] at hmem
    exact absurd hmem (List.not_mem_nil x)
  exact absurd (nodup_subset_length_le hnd hsub) (by omega)

theorem setdiff1d_eq_filter_of_sorted {a b : List PyStr} (hp : List.Pairwise LexLe a)
    (hnd : a.Nodup) : setdiff1d a b = a.filter (fun x => decide (x ∉ b)) := by
  unfold setdiff1d
  rw [List.dedup_eq_self.mpr (hnd.filter _)]
  exact List.Sorted.insertionSort_eq ((hp.sublist (List.filter_sublist a)))

theorem chain'_of_lexChain : ∀ {l : List PyStr}, lexChain l = true → List.Chain' LexLe l
  | [] => by simp
  | [a] => by simp
  | a :: b :: t => by
    intro h
    rw [lexChain, Bool.and_eq_true] at h
    rw [List.chain'_cons]
    exact ⟨h.1, chain'_of_lexChain h.2⟩

set_option maxRecDepth 10000 in
theorem pairwise_lexLe_prodRepeat2 : List.Pairwise LexLe (prodRepeat 2) := by
  rw [← List.chain'_iff_pairwise]
  exact chain'_of_lexChain (by decide)


theorem cladeNameLoop_spec (used : List PyStr) :
    ∀ fuel size, (∃ k, k < fuel ∧ setdiff1d (prodRepeat (size + k)) used ≠ []) →
      cladeNameLoop used fuel size ≠ [] ∧ ∀ x ∈ cladeNameLoop used fuel size, x ∉ used := by
  intro fuel
  induction fuel with
  | zero =>
    rintro size ⟨k, hk, _⟩
    omega
  | succ fuel ih =>
    rintro size ⟨k, hk, hne⟩
    rw [cladeNameLoop]
    by_cases hemp : (setdiff1d (prodRepeat size) used).isEmpty = true
    · simp only [hemp, if_pos]
      apply ih (size + 1)
      cases k with
      | zero =>
        exact absurd (List.isEmpty_iff.mp hemp) (by simpa using hne)
      | succ k' =>
        refine ⟨k', by omega, ?_⟩
        have : size + 1 + k' = size + (k' + 1) := by omega
        rw [this]
        exact hne
    · simp only [hemp, if_neg, Bool.not_eq_true]
      refine ⟨by simpa [List.isEmpty_iff] using hemp, ?_⟩
      intro x hx
      exact (mem_setdiff1d.mp hx).2

theorem used_lt_prodRepeat_length (used : List PyStr) :
    used.length < (prodRepeat (1 + used.length)).length := by
  rw [length_prodRepeat]
  calc used.length < 26 ^ used.length := Nat.lt_pow_self (by norm_num) _
  _ ≤ 26 ^ (1 + used.length) := Nat.pow_le_pow_right (by norm_num) (by omega)

theorem getUnusedCladeName_fresh (ids : SpeciesIds) :
    (getUnusedCladeName ids).1 ∉ usedCladeNames ids ∧
      (getUnusedCladeName ids).2 = ids ++ [((getUnusedCladeName ids).1, none)] := by
  have hmain : (getUnusedCladeName ids).1 ∉ usedCladeNames ids := by
    rw [getUnusedCladeName]
    simp only
    by_cases hemp : (setdiff1d alphabetNames (usedCladeNames ids)).isEmpty = true
    · simp only [hemp, if_pos]
      have hspec := cladeNameLoop_spec (usedCladeNames ids) ((usedCladeNames ids).length + 2) 1
        ⟨(usedCladeNames ids).length, by omega,
          setdiff1d_ne_nil (nodup_prodRepeat _) (used_lt_prodRepeat_length _)⟩
      obtain ⟨hne, hmem⟩ := hspec
      cases hl : cladeNameLoop (usedCladeNames ids) ((usedCladeNames ids).length + 2) 1 with
      | nil => exact absurd hl hne
      | cons a t =>
        rw [hl] at hmem
        simpa using hmem a (by simp)
    · simp only [hemp, if_neg, Bool.not_eq_true]
      cases hl : setdiff1d alphabetNames (usedCladeNames ids) with
      | nil => rw [hl] at hemp; simp at hemp
      | cons a t =>
        have := mem_setdiff1d.mp (hl ▸ (List.mem_cons_self a t))
        simpa using this.2
  refine ⟨hmain, ?_⟩
  rw [getUnusedCladeName] at hmain ⊢
  simp only [usedCladeNames] at hmain ⊢
  rw [dictSet, if_neg hmain]


theorem cladeCalls_step_right (n : Nat) (ids : SpeciesIds) :
    cladeCalls (n + 1) ids =
      ((cladeCalls n ids).1 ++ [(getUnusedCladeName (cladeCalls n ids).2).1],
        (getUnusedCladeName (cladeCalls n ids).2).2) := by
  induction n generalizing ids with
  | zero => simp [cladeCalls]
  | succ n ih =>
    rw [cladeCalls, ih]
    rw [show cladeCalls (n + 1) ids =
      ((getUnusedCladeName ids).1 :: (cladeCalls n (getUnusedCladeName ids).2).1,
        (cladeCalls n (getUnusedCladeName ids).2).2) from rfl]
    simp

set_option maxRecDepth 40000 in
set_option maxHeartbeats 2000000 in
theorem cladeCalls_26 :
    cladeCalls 26 [] = (alphabetNames, alphabetNames.map (fun nm => (nm, none))) := by
  decide

set_option maxRecDepth 40000 in
theorem getUnusedCladeName_after_alphabet :
    (getUnusedCladeName (alphabetNames.map (fun nm => (nm, none)))).1 = ['A', 'A'] := by
  have hused : usedCladeNames (alphabetNames.map (fun nm => (nm, none))) = alphabetNames := by
    decide
  have hp0 : setdiff1d alphabetNames alphabetNames = [] := by decide
  have hp1 : setdiff1d (prodRepeat 1) alphabetNames = [] := by decide
  have hlen : alphabetNames.length + 2 = 27 + 1 := by decide
  obtain ⟨t, ht⟩ : ∃ t, prodRepeat 2 = ['A', 'A'] :: t :=
    ⟨(prodRepeat 2).tail, by decide⟩
  have hsd2 : setdiff1d (prodRepeat 2) alphabetNames =
      ['A', 'A'] :: t.filter (fun x => decide (x ∉ alphabetNames)) := by
    rw [setdiff1d_eq_filter_of_sorted pairwise_lexLe_prodRepeat2 (nodup_prodRepeat 2)]
    rw [ht]
    rw [List.filter_cons_of_pos (by decide)]
  have hloop : cladeNameLoop alphabetNames (27 + 1) 1 =
      ['A', 'A'] :: t.filter (fun x => decide (x ∉ alphabetNames)) := by
    rw [cladeNameLoop]
    simp only [hp1, List.isEmpty_nil, if_pos]
    rw [show (27 : Nat) = 26 + 1 from rfl, show (1 : Nat) + 1 = 2 from rfl, cladeNameLoop]
    simp [hsd2]
  rw [getUnusedCladeName]
  simp only [hused, hp0, List.isEmpty_nil, if_pos, hlen, hloop, List.headD_cons]

/-- C3: for a fresh allocator, the first 26 clade-name allocations return the
single letters `A` through `Z` in that order and the 27th returns `AA`, the
first unused two-letter name in lexicographic Cartesian-product order; moreover
every allocation skips the names already issued (the returned name is never
among the used clade names of the registry it was drawn from). -/
theorem clade_allocation_order :
    (cladeCalls 27 []).1 = alphabetNames ++ [['A', 'A']] ∧
      ∀ ids, (getUnusedCladeName ids).1 ∉ usedCladeNames ids := by
  constructor
  · rw [show (27 : Nat) = 26 + 1 from rfl, cladeCalls_step_right, cladeCalls_26]
    simp [getUnusedCladeName_after_alphabet]
  · exact fun ids => (getUnusedCladeName_fresh ids).1


theorem find_eq_none_of_not_mem_keys {κ ν : Type} [DecidableEq κ] {d : List (κ × ν)} {k : κ}
    (hk : k ∉ d.map Prod.fst) : d.find? (fun e => e.1 = k) = none := by
  rw [List.find?_eq_none]
  intro e he
  simp only [decide_eq_true_eq]
  intro h1
  exact hk (h1 ▸ List.mem_map_of_mem Prod.fst he)

theorem dictFind_dictSet_self {κ ν : Type} [DecidableEq κ] (d : List (κ × ν)) (k : κ) (v : ν) :
    dictFind (dictSet d k v) k = some v := by
  rw [dictSet]
  by_cases hk : k ∈ d.map Prod.fst
  · rw [if_pos hk]
    induction d with
    | nil => simp at hk
    | cons e es ih =>
      by_cases he : e.1 = k
      · simp [dictFind, List.find?_cons, he]
      · simp only [List.map_cons, List.mem_cons] at hk
        have hk' : k ∈ es.map Prod.fst := hk.resolve_left (fun h => he h.symm)
        simp only [List.map_cons]
        rw [if_neg he]
        simp only [dictFind, List.find?_cons] at ih ⊢
        rw [show (decide (e.1 = k)) = false from by simp [he]]
        exact ih hk'
  · rw [if_neg hk]
    simp only [dictFind]
    rw [List.find?_append, find_eq_none_of_not_mem_keys hk]
    simp [List.find?_cons]

theorem dictFind_dictSet_other {κ ν : Type} [DecidableEq κ] (d : List (κ × ν)) {c k : κ} (v : ν)
    (hck : c ≠ k) : dictFind (dictSet d k v) c = dictFind d c := by
  have hkc : ¬ k = c := fun h => hck (Eq.symm h)
  rw [dictSet]
  by_cases hk : k ∈ d.map Prod.fst
  · rw [if_pos hk]
    clear hk
    induction d with
    | nil => rfl
    | cons e es ih =>
      simp only [List.map_cons, dictFind, List.find?_cons] at ih ⊢
      by_cases hec : e.1 = c
      · have hek : ¬ e.1 = k := fun h => hkc (by rw [← h]; exact hec)
        rw [if_neg hek]
        simp [hec]
      · by_cases hek : e.1 = k
        · rw [if_pos hek]
          simp only [show ((e.1, v).1 = c) = False from by simp [hec], decide_False,
            show ((e.1 = c)) = False from by simp [hec]]
          exact ih
        · rw [if_neg hek]
          simp only [show ((e.1 = c)) = False from by simp [hec], decide_False]
          exact ih
  · rw [if_neg hk]
    simp only [dictFind]
    rw [List.find?_append]
    cases hfind : List.find? (fun e => decide (e.1 = c)) d with
    | some a => simp
    | none => simp [List.find?_cons, hkc]

theorem dictFind_append_left {κ ν : Type} [DecidableEq κ] {d : List (κ × ν)} {c : κ} {v : ν}
    (h : dictFind d c = some v) (l : List (κ × ν)) : dictFind (d ++ l) c = some v := by
  simp only [dictFind] at h ⊢
  rw [List.find?_append]
  cases hfind : d.find? (fun e => e.1 = c) with
  | none => rw [hfind] at h; simp at h
  | some a => rw [hfind] at h; simpa using h

theorem speciesIdCalls_from_counter (clade : PyStr) (n : Nat) :
    ∀ ids k, dictFind ids clade = some (some k) →
      (speciesIdCalls clade n ids).1 = (List.range n).map (fun i => (clade, k + 1 + i)) := by
  induction n with
  | zero => intro ids k _; simp [speciesIdCalls]
  | succ n ih =>
    intro ids k hfind
    rw [speciesIdCalls, getUnusedSpeciesId, hfind]
    simp only
    rw [ih _ (k + 1) (dictFind_dictSet_self ids clade (some (k + 1)))]
    rw [List.range_succ_eq_map]
    simp only [List.map_cons, List.map_map]
    refine congrArg₂ List.cons (by simp) ?_
    apply List.map_congr_left
    intro i _
    simp only [Function.comp_apply, Prod.mk.injEq, true_and]
    omega

/-- C4: for a clade that has been allocated and not yet numbered (its registry
value is the uninitialized marker), the trace of `n` successive
`_get_unused_species_id` calls is exactly `(clade, 0), (clade, 1), …,
(clade, n-1)`: the first call returns number 0 and the i-th call returns
number i-1, increasing by exactly 1 with no gaps. -/
theorem species_numbers_start_at_zero (clade : PyStr) (n : Nat) (ids : SpeciesIds)
    (h : dictFind ids clade = some none) :
    (speciesIdCalls clade n ids).1 = (List.range n).map (fun i => (clade, i)) := by
  cases n with
  | zero => simp [speciesIdCalls]
  | succ n =>
    rw [speciesIdCalls, getUnusedSpeciesId, h]
    simp only
    rw [speciesIdCalls_from_counter clade n _ 0 (dictFind_dictSet_self ids clade (some 0))]
    rw [List.range_succ_eq_map]
    simp only [List.map_cons, List.map_map]
    refine congrArg₂ List.cons rfl ?_
    apply List.map_congr_left
    intro i _
    simp only [Function.comp_apply, Prod.mk.injEq, true_and]
    omega

/-- Witness for C4: on the registry holding exactly the freshly allocated clade
`A`, three calls return `(A, 0), (A, 1), (A, 2)`. -/
theorem species_numbers_start_at_zero_witness :
    (speciesIdCalls ['A'] 3 [(['A'], none)]).1 =
      (List.range 3).map (fun i => ((['A'] : PyStr), i)) :=
  species_numbers_start_at_zero ['A'] 3 [(['A'], none)] (by decide)


theorem allocStep_preserves (st : SpeciesIds) (issued : List (PyStr × Nat)) (op : AllocOp)
    (hnd : issued.Nodup) (hb : issuedBound st issued) :
    (issued ++ (allocStep st op).2).Nodup ∧
      issuedBound (allocStep st op).1 (issued ++ (allocStep st op).2) := by
  cases op with
  | clade =>
    simp only [allocStep, List.append_nil]
    refine ⟨hnd, ?_⟩
    intro p hp
    obtain ⟨k, hk, hpk⟩ := hb p hp
    obtain ⟨hfresh, heq⟩ := getUnusedCladeName_fresh st
    rw [heq]
    exact ⟨k, dictFind_append_left hk _, hpk⟩
  | species c =>
    cases hg : getUnusedSpeciesId c st with
    | none =>
      simp only [allocStep, hg, List.append_nil]
      exact ⟨hnd, hb⟩
    | some r =>
      obtain ⟨sid, st'⟩ := r
      simp only [allocStep, hg]
      rw [getUnusedSpeciesId] at hg
      cases hf : dictFind st c with
      | none => rw [hf] at hg; simp at hg
      | some vOld =>
        rw [hf] at hg
        cases vOld with
        | none =>
          simp only [Option.some.injEq] at hg
          injection hg with h1 h2
          subst h1
          subst h2
          have hnotin : ((c : PyStr), 0) ∉ issued := by
            intro hmem
            obtain ⟨k, hk, _⟩ := hb _ hmem
            rw [hf] at hk
            simp at hk
          constructor
          · rw [List.nodup_append]
            refine ⟨hnd, by simp, ?_⟩
            intro a ha hmem
            simp only [List.mem_singleton] at hmem
            subst hmem
            exact hnotin ha
          · intro p hp
            rcases List.mem_append.mp hp with hp' | hp'
            · obtain ⟨k, hk, hpk⟩ := hb p hp'
              by_cases hpc : p.1 = c
              · rw [hpc, hf] at hk
                simp at hk
              · exact ⟨k, by rw [dictFind_dictSet_other st _ hpc]; exact hk, hpk⟩
            · simp only [List.mem_singleton] at hp'
              subst hp'
              exact ⟨0, dictFind_dictSet_self st c (some 0), le_refl 0⟩
        | some kOld =>
          simp only [Option.some.injEq] at hg
          injection hg with h1 h2
          subst h1
          subst h2
          have hnotin : ((c : PyStr), kOld + 1) ∉ issued := by
            intro hmem
            obtain ⟨k, hk, hpk⟩ := hb _ hmem
            rw [hf] at hk
            simp only [Option.some.injEq] at hk
            omega
          constructor
          · rw [List.nodup_append]
            refine ⟨hnd, by simp, ?_⟩
            intro a ha hmem
            simp only [List.mem_singleton] at hmem
            subst hmem
            exact hnotin ha
          · intro p hp
            rcases List.mem_append.mp hp with hp' | hp'
            · obtain ⟨k, hk, hpk⟩ := hb p hp'
              by_cases hpc : p.1 = c
              · rw [hpc] at hk ⊢
                rw [hf] at hk
                simp only [Option.some.injEq] at hk
                refine ⟨kOld + 1, dictFind_dictSet_self st c (some (kOld + 1)), ?_⟩
                omega
              · exact ⟨k, by rw [dictFind_dictSet_other st _ hpc]; exact hk, hpk⟩
            · simp only [List.mem_singleton] at hp'
              subst hp'
              exact ⟨kOld + 1, dictFind_dictSet_self st c (some (kOld + 1)), le_refl _⟩

theorem allocRun_go (ops : List AllocOp) :
    ∀ st issued, issued.Nodup → issuedBound st issued →
      (ops.foldl (fun acc op => ((allocStep acc.1 op).1, acc.2 ++ (allocStep acc.1 op).2))
        (st, issued)).2.Nodup := by
  induction ops with
  | nil =>
    intro st issued hnd _
    simpa using hnd
  | cons op ops ih =>
    intro st issued hnd hb
    rw [List.foldl_cons]
    obtain ⟨hnd', hb'⟩ := allocStep_preserves st issued op hnd hb
    exact ih _ _ hnd' hb'

/-- C5: over any sequence of allocator operations on one allocator instance
(clade allocations and species-number allocations interleaved arbitrarily,
starting from the fresh registry), the issued `(clade, number)` pairs are
pairwise distinct. -/
theorem allocated_pairs_distinct (ops : List AllocOp) : (allocRun ops).2.Nodup := by
  rw [allocRun]
  exact allocRun_go ops [] [] List.nodup_nil (fun p hp => absurd hp (List.not_mem_nil p))


theorem mem_pyDedup {α : Type} [DecidableEq α] {x : α} : ∀ {l : List α}, x ∈ pyDedup l ↔ x ∈ l
  | [] => Iff.rfl
  | a :: t => by
    rw [pyDedup]
    by_cases hxa : x = a
    · subst hxa
      simp
    · simp only [List.mem_cons, hxa, false_or, List.mem_filter, mem_pyDedup, decide_eq_true_eq]
      exact ⟨fun h => h.1, fun h => ⟨h, hxa⟩⟩

theorem nodup_pyDedup {α : Type} [DecidableEq α] : ∀ (l : List α), (pyDedup l).Nodup
  | [] => List.nodup_nil
  | a :: t => by
    rw [pyDedup]
    refine List.nodup_cons.mpr ⟨?_, (nodup_pyDedup t).filter _⟩
    intro hmem
    simp [List.mem_filter] at hmem

theorem updateRowLatest_eq_map {α : Type} [DecidableEq α] (t : Int) (o : α) :
    ∀ (rows : List (LedgerRow α)), (rows.map (·.obj)).Nodup →
      updateRowLatest t rows o =
        rows.map (fun r => if r.obj = o then { r with latestTime := t } else r)
  | [], _ => rfl
  | r :: rs, hnd => by
    rw [updateRowLatest]
    simp only [List.map_cons, List.nodup_cons] at hnd
    simp only [List.map_cons]
    by_cases hro : r.obj = o
    · rw [if_pos hro, if_pos hro]
      refine congrArg _ ?_
      have hcongr : List.map (fun r => if r.obj = o then { r with latestTime := t } else r) rs
          = List.map id rs := by
        apply List.map_congr_left
        intro r' hr'
        have hne : r'.obj ≠ o := fun h => hnd.1 (hro ▸ h ▸ List.mem_map_of_mem (·.obj) hr')
        simp [hne]
      rw [hcongr, List.map_id]
    · rw [if_neg hro, if_neg hro]
      exact congrArg _ (updateRowLatest_eq_map t o rs hnd.2)

theorem map_obj_after_set {α : Type} [DecidableEq α] (t : Int) (rows : List (LedgerRow α))
    (f : LedgerRow α → Bool) :
    ((rows.map (fun r => if f r then { r with latestTime := t } else r)).map (·.obj)) =
      rows.map (·.obj) := by
  rw [List.map_map]
  apply List.map_congr_left
  intro r _
  by_cases h : f r = true <;> simp [h]

theorem foldl_updateRowLatest {α : Type} [DecidableEq α] (t : Int) :
    ∀ (os : List α) (rows : List (LedgerRow α)), (rows.map (·.obj)).Nodup →
      os.foldl (updateRowLatest t) rows =
        rows.map (fun r => if r.obj ∈ os then { r with latestTime := t } else r)
  | [], rows, _ => by simp
  | o :: os, rows, hnd => by
    rw [List.foldl_cons, updateRowLatest_eq_map t o rows hnd]
    rw [foldl_updateRowLatest t os _ (by
      have := map_obj_after_set t rows (fun r => decide (r.obj = o))
      simp only [decide_eq_true_eq] at this
      rw [this]
      exact hnd)]
    rw [List.map_map]
    apply List.map_congr_left
    intro r _
    simp only [Function.comp_apply]
    by_cases hro : r.obj = o
    · simp [hro, List.mem_cons]
    · by_cases hos : r.obj ∈ os
      · simp [hro, hos]
      · simp [hro, hos]

theorem updateZone_eq {α : Type} [DecidableEq α] (t : Int) (objs : List α)
    (rows : List (LedgerRow α)) (hnd : (rows.map (·.obj)).Nodup) :
    updateZoneDataStructure t objs rows =
      rows.map (fun r => if r.obj ∈ objs then { r with latestTime := t } else r) ++
        ((pyDedup objs).filter (fun o => decide (o ∉ rows.map (·.obj)))).map
          (fun o => ⟨t, t, o⟩) := by
  rw [updateZoneDataStructure, objectSetDifference]
  simp only
  rw [foldl_updateRowLatest t _ rows hnd]
  refine congrArg₂ (· ++ ·) ?_ rfl
  apply List.map_congr_left
  intro r hr
  have hmem : r.obj ∈ rows.map (·.obj) := List.mem_map_of_mem (·.obj) hr
  by_cases hro : r.obj ∈ objs
  · rw [if_pos (List.mem_filter.mpr ⟨mem_pyDedup.mpr hro, decide_eq_true hmem⟩), if_pos hro]
  · rw [if_neg (fun hmemf => hro (mem_pyDedup.mp (List.mem_filter.mp hmemf).1)), if_neg hro]

theorem nodup_filter_eq_single {α : Type} [DecidableEq α] {l : List α} {o : α}
    (hnd : l.Nodup) (ho : o ∈ l) : l.filter (fun x => decide (x = o)) = [o] := by
  induction l with
  | nil => simp at ho
  | cons a t ih =>
    rw [List.nodup_cons] at hnd
    rcases List.mem_cons.mp ho with rfl | hot
    · rw [List.filter_cons_of_pos (by simp)]
      have : t.filter (fun x => decide (x = o)) = [] := by
        rw [List.filter_eq_nil_iff]
        intro x hx
        simp only [decide_eq_true_eq]
        intro h
        exact hnd.1 (h ▸ hx)
      rw [this]
    · rw [List.filter_cons_of_neg (by simp; intro h; exact hnd.1 (h ▸ hot)), ih hnd.2 hot]


theorem filter_map_pred {α β : Type} (f : α → β) (p : β → Bool) :
    ∀ l : List α, (l.map f).filter p = (l.filter (fun x => p (f x))).map f
  | [] => rfl
  | a :: t => by
    simp only [List.map_cons, List.filter_cons]
    cases hp : p (f a) with
    | true => simp [filter_map_pred f p t]
    | false => simp [filter_map_pred f p t]

theorem nodup_key_filter_eq_single {α : Type} [DecidableEq α] :
    ∀ {rows : List (LedgerRow α)} {r : LedgerRow α}, (rows.map (·.obj)).Nodup → r ∈ rows →
      rows.filter (fun r' => decide (r'.obj = r.obj)) = [r]
  | [], r, _, hr => absurd hr (List.not_mem_nil r)
  | a :: t, r, hnd, hr => by
    simp only [List.map_cons, List.nodup_cons] at hnd
    rcases List.mem_cons.mp hr with rfl | hrt
    · rw [List.filter_cons_of_pos (by simp)]
      have hnil : t.filter (fun r' => decide (r'.obj = r.obj)) = [] := by
        rw [List.filter_eq_nil_iff]
        intro x hx
        simp only [decide_eq_true_eq]
        intro h
        exact hnd.1 (h ▸ List.mem_map_of_mem (·.obj) hx)
      rw [hnil]
    · rw [List.filter_cons_of_neg
        (by simp only [decide_eq_true_eq]
            intro h
            exact hnd.1 (h ▸ List.mem_map_of_mem (·.obj) hrt)),
        nodup_key_filter_eq_single hnd.2 hrt]

theorem map_obj_update_mem {α : Type} [DecidableEq α] (t : Int) (objs : List α)
    (rows : List (LedgerRow α)) :
    ((rows.map (fun r => if r.obj ∈ objs then { r with latestTime := t } else r)).map (·.obj)) =
      rows.map (·.obj) := by
  rw [List.map_map]
  apply List.map_congr_left
  intro r _
  by_cases h : r.obj ∈ objs <;> simp [h]

/-- C6: reconciling a ledger (whose rows track pairwise distinct objects) at a
time `t` with an entity collection is idempotent, and has the stated row-level
effect: doing the update twice equals doing it once; an already-tracked entity
ends with exactly one row, its `latest_time` set to `t`; a new entity ends with
exactly one appended row `(t, t, entity)`; an entity absent from the collection
keeps its row exactly as it was. -/
theorem reconcile_idempotent {α : Type} [DecidableEq α] (t : Int) (objs : List α)
    (rows : List (LedgerRow α)) (hnd : (rows.map (·.obj)).Nodup) :
    updateZoneDataStructure t objs (updateZoneDataStructure t objs rows) =
        updateZoneDataStructure t objs rows ∧
      (∀ r ∈ rows, r.obj ∈ objs →
        (updateZoneDataStructure t objs rows).filter (fun r' => decide (r'.obj = r.obj)) =
          [{ r with latestTime := t }]) ∧
      (∀ o ∈ objs, o ∉ rows.map (·.obj) →
        (updateZoneDataStructure t objs rows).filter (fun r' => decide (r'.obj = o)) =
          [⟨t, t, o⟩]) ∧
      (∀ r ∈ rows, r.obj ∉ objs →
        (updateZoneDataStructure t objs rows).filter (fun r' => decide (r'.obj = r.obj)) =
          [r]) := by
  have hM := updateZone_eq t objs rows hnd
  have hfilterM : ∀ x : α,
      (rows.map (fun r => if r.obj ∈ objs then { r with latestTime := t } else r)).filter
          (fun r' => decide (r'.obj = x)) =
        (rows.filter (fun r' => decide (r'.obj = x))).map
          (fun r => if r.obj ∈ objs then { r with latestTime := t } else r) := by
    intro x
    rw [filter_map_pred]
    refine congrArg _ (List.filter_congr ?_)
    intro r _
    by_cases h : r.obj ∈ objs <;> simp [h]
  have hNnil : ∀ x : α, x ∈ rows.map (·.obj) →
      (((pyDedup objs).filter (fun o => decide (o ∉ rows.map (·.obj)))).map
        (fun o => (⟨t, t, o⟩ : LedgerRow α))).filter (fun r' => decide (r'.obj = x)) = [] := by
    intro x hx
    rw [List.filter_eq_nil_iff]
    intro r' hr'
    obtain ⟨o, ho, rfl⟩ := List.mem_map.mp hr'
    have hno : o ∉ rows.map (·.obj) := by
      have := (List.mem_filter.mp ho).2
      simpa using this
    simp only [decide_eq_true_eq]
    intro h
    exact hno (h ▸ hx)
  refine ⟨?_, ?_, ?_, ?_⟩
  · have hnd' : ((updateZoneDataStructure t objs rows).map (·.obj)).Nodup := by
      rw [hM, List.map_append, map_obj_update_mem, List.map_map]
      have : ((fun r : LedgerRow α => r.obj) ∘ fun o => (⟨t, t, o⟩ : LedgerRow α)) = id := rfl
      rw [this, List.map_id, List.nodup_append]
      refine ⟨hnd, ((nodup_pyDedup objs).filter _), ?_⟩
      intro x hx hx'
      have := (List.mem_filter.mp hx').2
      simp only [decide_eq_true_eq] at this
      exact this hx
    rw [updateZone_eq t objs _ hnd']
    have hnew : ((pyDedup objs).filter
        (fun o => decide (o ∉ (updateZoneDataStructure t objs rows).map (·.obj)))) = [] := by
      rw [List.filter_eq_nil_iff]
      intro o ho
      simp only [decide_eq_true_eq, not_not]
      rw [hM, List.map_append, map_obj_update_mem, List.map_map]
      have : ((fun r : LedgerRow α => r.obj) ∘ fun o => (⟨t, t, o⟩ : LedgerRow α)) = id := rfl
      rw [this, List.map_id]
      by_cases hmem : o ∈ rows.map (·.obj)
      · exact List.mem_append_left _ hmem
      · exact List.mem_append_right _ (List.mem_filter.mpr ⟨ho, decide_eq_true hmem⟩)
    rw [hnew, List.map_nil, List.append_nil]
    have hfix : ∀ r ∈ updateZoneDataStructure t objs rows,
        (if r.obj ∈ objs then { r with latestTime := t } else r) = r := by
      intro r hr
      rw [hM] at hr
      rcases List.mem_append.mp hr with hr' | hr'
      · obtain ⟨r0, _, rfl⟩ := List.mem_map.mp hr'
        by_cases h0 : r0.obj ∈ objs
        · simp [h0]
        · simp [h0]
      · obtain ⟨o, ho, rfl⟩ := List.mem_map.mp hr'
        have : o ∈ objs := mem_pyDedup.mp (List.mem_filter.mp ho).1
        simp [this]
    calc (updateZoneDataStructure t objs rows).map
          (fun r => if r.obj ∈ objs then { r with latestTime := t } else r)
        = (updateZoneDataStructure t objs rows).map id := List.map_congr_left hfix
      _ = updateZoneDataStructure t objs rows := List.map_id _
  · intro r hr hro
    rw [hM, List.filter_append, hfilterM r.obj, nodup_key_filter_eq_single hnd hr,
      hNnil r.obj (List.mem_map_of_mem (·.obj) hr), List.append_nil]
    simp [hro]
  · intro o ho hno
    rw [hM, List.filter_append, hfilterM o]
    have h1 : rows.filter (fun r' => decide (r'.obj = o)) = [] := by
      rw [List.filter_eq_nil_iff]
      intro r' hr'
      simp only [decide_eq_true_eq]
      intro h
      exact hno (h ▸ List.mem_map_of_mem (·.obj) hr')
    rw [h1, List.map_nil, List.nil_append, filter_map_pred]
    have h2 : ((pyDedup objs).filter (fun o' => decide (o' ∉ rows.map (·.obj)))).filter
        (fun o' => decide ((⟨t, t, o'⟩ : LedgerRow α).obj = o)) = [o] := by
      have hnd2 : ((pyDedup objs).filter (fun o' => decide (o' ∉ rows.map (·.obj)))).Nodup :=
        (nodup_pyDedup objs).filter _
      have hmem2 : o ∈ (pyDedup objs).filter (fun o' => decide (o' ∉ rows.map (·.obj))) :=
        List.mem_filter.mpr ⟨mem_pyDedup.mpr ho, decide_eq_true hno⟩
      exact nodup_filter_eq_single hnd2 hmem2
    rw [h2]
    rfl
  · intro r hr hro
    rw [hM, List.filter_append, hfilterM r.obj, nodup_key_filter_eq_single hnd hr,
      hNnil r.obj (List.mem_map_of_mem (·.obj) hr), List.append_nil]
    simp [hro]

/-- Witness for C6 at time 2 on the two-row ledger tracking objects 1 and 2,
reconciled with the collection `[1, 3]` (object 1 already tracked, object 3
new, object 2 absent). -/
theorem reconcile_idempotent_witness :
    updateZoneDataStructure 2 [1, 3]
        (updateZoneDataStructure 2 [1, 3] ([⟨0, 1, 1⟩, ⟨0, 1, 2⟩] : List (LedgerRow Nat))) =
        updateZoneDataStructure 2 [1, 3] [⟨0, 1, 1⟩, ⟨0, 1, 2⟩] ∧
      (updateZoneDataStructure 2 [1, 3] ([⟨0, 1, 1⟩, ⟨0, 1, 2⟩] : List (LedgerRow Nat))).filter
          (fun r' => decide (r'.obj = 1)) = [⟨0, 2, 1⟩] ∧
      (updateZoneDataStructure 2 [1, 3] ([⟨0, 1, 1⟩, ⟨0, 1, 2⟩] : List (LedgerRow Nat))).filter
          (fun r' => decide (r'.obj = 3)) = [⟨2, 2, 3⟩] ∧
      (updateZoneDataStructure 2 [1, 3] ([⟨0, 1, 1⟩, ⟨0, 1, 2⟩] : List (LedgerRow Nat))).filter
          (fun r' => decide (r'.obj = 2)) = [⟨0, 1, 2⟩] := by
  obtain ⟨h1, h2, h3, h4⟩ :=
    reconcile_idempotent 2 [1, 3] ([⟨0, 1, 1⟩, ⟨0, 1, 2⟩] : List (LedgerRow Nat)) (by decide)
  exact ⟨h1, h2 ⟨0, 1, 1⟩ (by decide) (by decide), h3 3 (by decide) (by decide),
    h4 ⟨0, 1, 2⟩ (by decide) (by decide)⟩


theorem dictFind_append_fresh {κ ν : Type} [DecidableEq κ] {d : List (κ × ν)} {k : κ}
    (hk : k ∉ d.map Prod.fst) (v : ν) : dictFind (d ++ [(k, v)]) k = some v := by
  rw [dictFind, List.find?_append, find_eq_none_of_not_mem_keys hk]
  simp [List.find?_cons]

theorem dictSet_append_fresh {κ ν : Type} [DecidableEq κ] {d : List (κ × ν)} {k : κ}
    (hk : k ∉ d.map Prod.fst) (v0 v : ν) : dictSet (d ++ [(k, v0)]) k v = d ++ [(k, v)] := by
  rw [dictSet, if_pos (by simp)]
  rw [List.map_append]
  refine congrArg₂ (· ++ ·) ?_ (by simp)
  have hid : ∀ e ∈ d, (if e.1 = k then (e.1, v) else e) = e := by
    intro e he
    rw [if_neg]
    intro h
    exact hk (h ▸ List.mem_map_of_mem Prod.fst he)
  calc d.map (fun e => if e.1 = k then (e.1, v) else e) = d.map id := List.map_congr_left hid
    _ = d := List.map_id d

/-- C7: `introduce_species` raises `DuplicateIntroduction` on an already
tracked species and `UnzonedSpecies` on a species occupying no zones, in both
cases leaving the whole state (species table, registry, attribute store,
record, zones) untouched; on success it assigns a fresh clade (one not among
the used clade names) with number 0 as the species' identifier and appends
exactly one species row at the latest recorded time. -/
theorem introduce_species_spec (st : SE) (sp : PySpecies) :
    (sp.sid ∈ st.species.map (·.obj) →
      introduceSpecies st sp = (st, some .duplicateIntroduction)) ∧
      (sp.sid ∉ st.species.map (·.obj) → sp.zones = [] →
        introduceSpecies st sp = (st, some .unzonedSpecies)) ∧
      (sp.sid ∉ st.species.map (·.obj) → sp.zones ≠ [] →
        ∃ clade, clade ∉ usedCladeNames st.speciesIds ∧
          (introduceSpecies st sp).2 = none ∧
          (introduceSpecies st sp).1.species =
            st.species ++
              [⟨clade, 0, timesMax (timesOf st.record), timesMax (timesOf st.record), sp.sid⟩] ∧
          (introduceSpecies st sp).1.speciesIds = st.speciesIds ++ [(clade, some 0)] ∧
          (introduceSpecies st sp).1.idMap = dictSet st.idMap sp.sid (clade, 0) ∧
          (introduceSpecies st sp).1.record = st.record ∧
          (introduceSpecies st sp).1.zones = st.zones) := by
  refine ⟨?_, ?_, ?_⟩
  · intro hdup
    rw [introduceSpecies, if_pos hdup]
  · intro hndup hz
    rw [introduceSpecies, if_neg hndup, if_pos (by simp [hz])]
  · intro hndup hz
    obtain ⟨hfresh, hids⟩ := getUnusedCladeName_fresh st.speciesIds
    have hfresh' : (getUnusedCladeName st.speciesIds).1 ∉ st.speciesIds.map Prod.fst := hfresh
    have hgid : getUnusedSpeciesId (getUnusedCladeName st.speciesIds).1
        (getUnusedCladeName st.speciesIds).2 =
          some (((getUnusedCladeName st.speciesIds).1, 0),
            st.speciesIds ++ [((getUnusedCladeName st.speciesIds).1, some 0)]) := by
      rw [hids, getUnusedSpeciesId, dictFind_append_fresh hfresh' none]
      rw [dictSet_append_fresh hfresh' none (some 0)]
    have hupd : updateSpeciesDataStructure (timesMax (timesOf st.record)) [sp.sid]
        (dictSet st.idMap sp.sid ((getUnusedCladeName st.speciesIds).1, 0)) st.species =
          some (st.species ++
            [⟨(getUnusedCladeName st.speciesIds).1, 0, timesMax (timesOf st.record),
              timesMax (timesOf st.record), sp.sid⟩]) := by
      have hdiff : objectSetDifference [sp.sid] (st.species.map (·.obj)) = ([], [sp.sid]) := by
        rw [objectSetDifference]
        have hpd : pyDedup [sp.sid] = [sp.sid] := by simp [pyDedup]
        rw [hpd]
        rw [List.filter_cons_of_neg (by simp only [decide_eq_true_eq]; exact hndup),
          List.filter_nil,
          List.filter_cons_of_pos (by simp only [decide_eq_true_eq]; exact hndup),
          List.filter_nil]
      rw [updateSpeciesDataStructure]
      simp only [hdiff, List.foldl_nil, resolveIds,
        dictFind_dictSet_self st.idMap sp.sid ((getUnusedCladeName st.speciesIds).1, 0)]
      simp
    have hz' : sp.zones.isEmpty = false := by
      cases hzz : sp.zones with
      | nil => exact absurd hzz hz
      | cons a t => rfl
    refine ⟨(getUnusedCladeName st.speciesIds).1, hfresh, ?_⟩
    rw [introduceSpecies, if_neg hndup, if_neg (by simp [hz'])]
    simp only [hgid, hupd]
    simp

/-- Witness for C7: on a one-species state, reintroducing the tracked species
object raises the duplicate error with the state unchanged; on a fresh state a
zoneless species raises the unzoned error with the state unchanged, while a
species occupying zone 5 is introduced without error. -/
theorem introduce_species_spec_witness :
    introduceSpecies
        ⟨[(timeKey, [some 0])], [⟨['A'], 0, 0, 0, 1⟩], [], [(['A'], some 0)],
          [(1, (['A'], 0))], 1⟩ ⟨1, [5]⟩ =
      (⟨[(timeKey, [some 0])], [⟨['A'], 0, 0, 0, 1⟩], [], [(['A'], some 0)],
          [(1, (['A'], 0))], 1⟩, some .duplicateIntroduction) ∧
      introduceSpecies ⟨[(timeKey, [some 0])], [], [], [], [], 1⟩ ⟨1, []⟩ =
        (⟨[(timeKey, [some 0])], [], [], [], [], 1⟩, some .unzonedSpecies) ∧
      (introduceSpecies ⟨[(timeKey, [some 0])], [], [], [], [], 1⟩ ⟨1, [5]⟩).2 = none := by
  refine ⟨?_, ?_, ?_⟩
  · exact (introduce_species_spec _ _).1 (by decide)
  · exact (introduce_species_spec _ _).2.1 (by decide) rfl
  · obtain ⟨c, _, h, _⟩ :=
      (introduce_species_spec ⟨[(timeKey, [some 0])], [], [], [], [], 1⟩ ⟨1, [5]⟩).2.2
        (by decide) (by decide)
    exact h

/-- C8: evaluation of `species_with_identifier` at the failing inputs.  A
1-tuple and a 0-tuple raise `IndexError` (the elements are read before the
length validation), which is not the malformed-query `TypeError`; a 3-tuple
does raise the validation `TypeError`, as does a key of a completely different
type; a well-formed pair matching no tracked species returns `None`. -/
theorem species_with_identifier_short_tuple :
    speciesWithIdentifier [] (.tup [.vstr ['A']]) = .error .indexError ∧
      speciesWithIdentifier [] (.tup []) = .error .indexError ∧
      QueryErr.indexError ≠ QueryErr.typeError ∧
      speciesWithIdentifier [] (.tup [.vstr ['A'], .vint 0, .vint 1]) = .error .typeError ∧
      speciesWithIdentifier [] .other = .error .typeError ∧
      speciesWithIdentifier [⟨['A'], 0, 0, 0, 1⟩] (.tup [.vstr ['B'], .vint 0]) = .ok none :=
  ⟨rfl, rfl, by decide, rfl, rfl, rfl⟩


theorem assignChildIds_preserves : ∀ (cs : List PyChild) (acc : SpLoopAcc),
    (assignChildIds acc cs).1.evolveLog = acc.evolveLog ∧
      (assignChildIds acc cs).1.childLog = acc.childLog
  | [], acc => ⟨rfl, rfl⟩
  | c :: rest, acc => by
    rw [assignChildIds]
    split
    · exact ⟨rfl, rfl⟩
    · split
      · exact ⟨rfl, rfl⟩
      · split
        · exact ⟨rfl, rfl⟩
        · exact assignChildIds_preserves rest _

theorem assignChildIds_ok : ∀ (cs : List PyChild) (acc : SpLoopAcc),
    (assignChildIds acc cs).2 = none → ∀ c ∈ cs, c.parent ≠ none
  | [], _, _, c, hc => absurd hc (List.not_mem_nil c)
  | c0 :: rest, acc, h, c, hc => by
    rcases List.mem_cons.mp hc with rfl | hcr
    · intro hnone
      rw [assignChildIds] at h
      rw [hnone] at h
      simp at h
    · rw [assignChildIds] at h
      split at h
      · simp at h
      · split at h
        · simp at h
        · split at h
          · simp at h
          · exact assignChildIds_ok rest _ h c hcr

theorem speciesLoop_ok (B : TickBehavior) (time dt : Int) :
    ∀ (todo : List Nat) (acc : SpLoopAcc), (speciesLoop B time dt todo acc).2 = none →
      (speciesLoop B time dt todo acc).1.evolveLog = acc.evolveLog ++ todo ∧
        ∀ c ∈ (speciesLoop B time dt todo acc).1.childLog, c ∈ acc.childLog ∨ c.parent ≠ none
  | [], acc, _ => ⟨by simp [speciesLoop], fun c hc => Or.inl hc⟩
  | es :: rest, acc, h => by
    rw [speciesLoop] at h ⊢
    rcases hass : assignChildIds (speciesStepAcc B time dt es acc)
        (B.evolve es time dt acc.addOn).2.1 with ⟨acc2, err2⟩
    rw [hass] at h
    cases err2 with
    | some e => simp at h
    | none =>
      have h' : (speciesLoop B time dt rest acc2).2 = none := h
      obtain ⟨hlog, hchild⟩ := speciesLoop_ok B time dt rest acc2 h'
      have hpres := assignChildIds_preserves (B.evolve es time dt acc.addOn).2.1
        (speciesStepAcc B time dt es acc)
      rw [hass] at hpres
      refine ⟨?_, ?_⟩
      · show (speciesLoop B time dt rest acc2).1.evolveLog = acc.evolveLog ++ es :: rest
        rw [hlog, hpres.1]
        show (acc.evolveLog ++ [es]) ++ rest = acc.evolveLog ++ es :: rest
        simp
      · intro c hc
        have hc0 : c ∈ (speciesLoop B time dt rest acc2).1.childLog := hc
        rcases hchild c hc0 with hc2 | hc2
        · rw [hpres.2] at hc2
          have hc3 : c ∈ acc.childLog ++ (B.evolve es time dt acc.addOn).2.1 := hc2
          rcases List.mem_append.mp hc3 with hc4 | hc4
          · exact Or.inl hc4
          · exact Or.inr (assignChildIds_ok _ _ (by rw [hass]) c hc4)
        · exact Or.inr hc2


theorem zonePathsFold_log (B : TickBehavior) (time : Int) (pz nz : List PyZone) (n : Nat) :
    (zonePathsFold B time pz nz n).2.2 = List.range n := by
  rw [zonePathsFold]
  suffices h : ∀ (l : List Nat) (acc : List PyZone × AddOn × List Nat),
      (l.foldl (fun acc m =>
        let r := B.updPaths m time (pz.filter (fun z => decide (z.manager = m)))
          (nz.filter (fun z => decide (z.manager = m))) acc.2.1
        (acc.1 ++ r.1, r.2, acc.2.2 ++ [m])) acc).2.2 = acc.2.2 ++ l by
    simpa using h (List.range n) ([], [], [])
  intro l
  induction l with
  | nil => intro acc; simp
  | cons m l ih =>
    intro acc
    rw [List.foldl_cons, ih]
    simp

theorem zonePhase_fields (B : TickBehavior) (st : SE) (dt : Int) :
    (zonePhase B st dt).1.species = st.species ∧
      (zonePhase B st dt).1.speciesIds = st.speciesIds ∧
      (zonePhase B st dt).1.idMap = st.idMap ∧
      (zonePhase B st dt).1.nManagers = st.nManagers ∧
      (zonePhase B st dt).2 = List.range st.nManagers := by
  refine ⟨rfl, rfl, rfl, rfl, ?_⟩
  show (zonePathsFold B (tickTime st dt)
      (objectsAtTime
        (getPriorTime (timesOf (recordAppend st.record timeKey (some (tickTime st dt)))))
        st.zones)
      ((List.range st.nManagers).flatMap B.create) st.nManagers).2.2 = List.range st.nManagers
  exact zonePathsFold_log B (tickTime st dt) _ _ st.nManagers

theorem runOneStep_split (B : TickBehavior) (st : SE) (dt : Int) :
    (runOneStep B st dt).2.pathOrder = (zonePhase B st dt).2 ∧
      (runOneStep B st dt).1.1.zones = (zonePhase B st dt).1.zones ∧
      ((runOneStep B st dt).1.2 ≠ none → (runOneStep B st dt).1.1.species = st.species) ∧
      ((runOneStep B st dt).1.2 = none → (zonePhase B st dt).1.species.isEmpty = false →
        (runOneStep B st dt).2.evolveOrder =
            speciesAtTime (getPriorTime (timesOf (zonePhase B st dt).1.record))
              (zonePhase B st dt).1.species ∧
          ∀ c ∈ (runOneStep B st dt).2.childLog, c.parent ≠ none) ∧
      ((zonePhase B st dt).1.species.isEmpty = true → (runOneStep B st dt).2.childLog = []) ∧
      ((∃ c ∈ (runOneStep B st dt).2.childLog, c.parent = none) →
        (runOneStep B st dt).1.2 ≠ none) := by
  by_cases hsp : (zonePhase B st dt).1.species.isEmpty = true
  · have hrun : runOneStep B st dt =
        (((zonePhase B st dt).1, none), ⟨(zonePhase B st dt).2, [], [], true⟩) := by
      simp only [runOneStep]
      rw [if_pos hsp]
    rw [hrun]
    refine ⟨rfl, rfl, fun hne => absurd rfl hne, ?_, fun _ => rfl, ?_⟩
    · intro _ hfalse
      rw [hsp] at hfalse
      exact absurd hfalse (by simp)
    · rintro ⟨c, hc, _⟩
      simp at hc
  · have hsp' : (zonePhase B st dt).1.species.isEmpty = false := by
      simpa using hsp
    rcases hloop : speciesLoop B (tickTime st dt) dt
        (speciesAtTime (getPriorTime (timesOf (zonePhase B st dt).1.record))
          (zonePhase B st dt).1.species)
        ⟨[], [], (zonePhase B st dt).1.speciesIds, (zonePhase B st dt).1.idMap, [], []⟩
      with ⟨acc, err⟩
    cases err with
    | some e =>
      have hrun : runOneStep B st dt =
          (({ (zonePhase B st dt).1 with
              speciesIds := acc.speciesIds
              idMap := acc.idMap }, some e),
            ⟨(zonePhase B st dt).2, acc.evolveLog, acc.childLog, false⟩) := by
        simp only [runOneStep]
        rw [if_neg (by simp [hsp']), hloop]
      rw [hrun]
      refine ⟨rfl, rfl, fun _ => (zonePhase_fields B st dt).1, ?_, ?_, fun _ => by simp⟩
      · intro hnone
        simp at hnone
      · intro htrue
        rw [htrue] at hsp'
        exact absurd hsp' (by simp)
    | none =>
      rcases hupd : updateSpeciesDataStructure (tickTime st dt) acc.survivors acc.idMap
          (zonePhase B st dt).1.species with _ | rows2
      · have hrun : runOneStep B st dt =
            (({ (zonePhase B st dt).1 with
                record := insertRecordAddOn acc.addOn (zonePhase B st dt).1.record
                speciesIds := acc.speciesIds
                idMap := acc.idMap }, some .identifierError),
              ⟨(zonePhase B st dt).2, acc.evolveLog, acc.childLog, false⟩) := by
          simp only [runOneStep]
          rw [if_neg (by simp [hsp']), hloop]
          simp only [hupd]
        rw [hrun]
        refine ⟨rfl, rfl, fun _ => (zonePhase_fields B st dt).1, ?_, ?_, fun _ => by simp⟩
        · intro hnone
          simp at hnone
        · intro htrue
          rw [htrue] at hsp'
          exact absurd hsp' (by simp)
      · have hrun : runOneStep B st dt =
            (({ (zonePhase B st dt).1 with
                record := insertRecordAddOn acc.addOn (zonePhase B st dt).1.record
                species := rows2
                speciesIds := acc.speciesIds
                idMap := acc.idMap }, none),
              ⟨(zonePhase B st dt).2, acc.evolveLog, acc.childLog, false⟩) := by
          simp only [runOneStep]
          rw [if_neg (by simp [hsp']), hloop]
          simp only [hupd]
        obtain ⟨hlog, hchild⟩ := speciesLoop_ok B (tickTime st dt) dt
          (speciesAtTime (getPriorTime (timesOf (zonePhase B st dt).1.record))
            (zonePhase B st dt).1.species)
          ⟨[], [], (zonePhase B st dt).1.speciesIds, (zonePhase B st dt).1.idMap, [], []⟩
          (by rw [hloop])
        rw [hloop] at hlog hchild
        rw [hrun]
        have hparented : ∀ c ∈ acc.childLog, c.parent ≠ none := by
          intro c hc
          rcases hchild c hc with hc2 | hc2
          · simp at hc2
          · exact hc2
        refine ⟨rfl, rfl, fun hne => absurd rfl hne, ?_, ?_, ?_⟩
        · intro _ _
          refine ⟨?_, hparented⟩
          simpa using hlog
        · intro htrue
          rw [htrue] at hsp'
          exact absurd hsp' (by simp)
        · rintro ⟨c, hc, hcp⟩
          exact absurd hcp (hparented c hc)

/-- C9: `run_one_step` is deterministic with fixed collaborator behavior:
identical behaviors, states, and `dt` give identical results (state, error,
and observable call structure, hence identical ledger row orders, identifier
assignments, and record columns); the zone managers are consulted in
provider-list order (`0, 1, …`); and when the species phase runs to
completion the species are evolved exactly in the order of the extant-species
query on the ledger, which returns them in ledger insertion order. -/
theorem run_one_step_deterministic_order (B1 B2 : TickBehavior) (st1 st2 : SE)
    (dt1 dt2 : Int) (hB : B1 = B2) (hst : st1 = st2) (hdt : dt1 = dt2) :
    runOneStep B1 st1 dt1 = runOneStep B2 st2 dt2 ∧
      (runOneStep B1 st1 dt1).2.pathOrder = List.range st1.nManagers ∧
      ((runOneStep B1 st1 dt1).1.2 = none →
        (zonePhase B1 st1 dt1).1.species.isEmpty = false →
        (runOneStep B1 st1 dt1).2.evolveOrder =
          speciesAtTime (getPriorTime (timesOf (zonePhase B1 st1 dt1).1.record))
            st1.species) := by
  subst hB
  subst hst
  subst hdt
  refine ⟨rfl, ?_, ?_⟩
  · rw [(runOneStep_split B1 st1 dt1).1]
    exact (zonePhase_fields B1 st1 dt1).2.2.2.2
  · intro h1 h2
    have h := ((runOneStep_split B1 st1 dt1).2.2.2.1 h1 h2).1
    rw [h, (zonePhase_fields B1 st1 dt1).1]

/-- Witness for C9 on a one-manager, one-species state with trivial
collaborators (no zones created, no paths, one extant non-speciating
species). -/
theorem run_one_step_deterministic_order_witness :
    runOneStep ⟨fun _ => [], fun _ _ _ _ a => ([], a), fun _ _ _ a => (true, [], a)⟩
          ⟨[(timeKey, [some 0])], [⟨['A'], 0, 0, 0, 1⟩], [], [(['A'], some 0)],
            [(1, (['A'], 0))], 1⟩ 1 =
        runOneStep ⟨fun _ => [], fun _ _ _ _ a => ([], a), fun _ _ _ a => (true, [], a)⟩
          ⟨[(timeKey, [some 0])], [⟨['A'], 0, 0, 0, 1⟩], [], [(['A'], some 0)],
            [(1, (['A'], 0))], 1⟩ 1 ∧
      (runOneStep ⟨fun _ => [], fun _ _ _ _ a => ([], a), fun _ _ _ a => (true, [], a)⟩
          ⟨[(timeKey, [some 0])], [⟨['A'], 0, 0, 0, 1⟩], [], [(['A'], some 0)],
            [(1, (['A'], 0))], 1⟩ 1).2.pathOrder = List.range 1 ∧
      ((runOneStep ⟨fun _ => [], fun _ _ _ _ a => ([], a), fun _ _ _ a => (true, [], a)⟩
          ⟨[(timeKey, [some 0])], [⟨['A'], 0, 0, 0, 1⟩], [], [(['A'], some 0)],
            [(1, (['A'], 0))], 1⟩ 1).1.2 = none →
        (zonePhase ⟨fun _ => [], fun _ _ _ _ a => ([], a), fun _ _ _ a => (true, [], a)⟩
          ⟨[(timeKey, [some 0])], [⟨['A'], 0, 0, 0, 1⟩], [], [(['A'], some 0)],
            [(1, (['A'], 0))], 1⟩ 1).1.species.isEmpty = false →
        (runOneStep ⟨fun _ => [], fun _ _ _ _ a => ([], a), fun _ _ _ a => (true, [], a)⟩
          ⟨[(timeKey, [some 0])], [⟨['A'], 0, 0, 0, 1⟩], [], [(['A'], some 0)],
            [(1, (['A'], 0))], 1⟩ 1).2.evolveOrder =
          speciesAtTime
            (getPriorTime (timesOf
              (zonePhase ⟨fun _ => [], fun _ _ _ _ a => ([], a),
                  fun _ _ _ a => (true, [], a)⟩
                ⟨[(timeKey, [some 0])], [⟨['A'], 0, 0, 0, 1⟩], [], [(['A'], some 0)],
                  [(1, (['A'], 0))], 1⟩ 1).1.record))
            [⟨['A'], 0, 0, 0, 1⟩]) :=
  run_one_step_deterministic_order _ _ _ _ 1 1 rfl rfl rfl

/-- C10: if any child returned by an evolve call of this tick has no parent
species, the call raises (the returned error is set) before the species table
is updated, while the zone table update of the same tick has already
completed. -/
theorem evolve_child_requires_parent (B : TickBehavior) (st : SE) (dt : Int)
    (h : ∃ c ∈ (runOneStep B st dt).2.childLog, c.parent = none) :
    (runOneStep B st dt).1.2 ≠ none ∧
      (runOneStep B st dt).1.1.species = st.species ∧
      (runOneStep B st dt).1.1.zones = (zonePhase B st dt).1.zones := by
  have hne := (runOneStep_split B st dt).2.2.2.2.2 h
  exact ⟨hne, (runOneStep_split B st dt).2.2.1 hne, (runOneStep_split B st dt).2.1⟩

/-- Witness for C10: the single tracked species evolves into a child with no
parent species; the step errors out, the species table is unchanged, and the
zone table is the zone phase's result. -/
theorem evolve_child_requires_parent_witness :
    (runOneStep ⟨fun _ => [], fun _ _ _ _ a => ([], a),
          fun _ _ _ a => (true, [⟨2, none⟩], a)⟩
        ⟨[(timeKey, [some 0])], [⟨['A'], 0, 0, 0, 1⟩], [], [(['A'], some 0)],
          [(1, (['A'], 0))], 1⟩ 1).1.2 ≠ none ∧
      (runOneStep ⟨fun _ => [], fun _ _ _ _ a => ([], a),
            fun _ _ _ a => (true, [⟨2, none⟩], a)⟩
          ⟨[(timeKey, [some 0])], [⟨['A'], 0, 0, 0, 1⟩], [], [(['A'], some 0)],
            [(1, (['A'], 0))], 1⟩ 1).1.1.species = [⟨['A'], 0, 0, 0, 1⟩] ∧
      (runOneStep ⟨fun _ => [], fun _ _ _ _ a => ([], a),
            fun _ _ _ a => (true, [⟨2, none⟩], a)⟩
          ⟨[(timeKey, [some 0])], [⟨['A'], 0, 0, 0, 1⟩], [], [(['A'], some 0)],
            [(1, (['A'], 0))], 1⟩ 1).1.1.zones =
        (zonePhase ⟨fun _ => [], fun _ _ _ _ a => ([], a),
            fun _ _ _ a => (true, [⟨2, none⟩], a)⟩
          ⟨[(timeKey, [some 0])], [⟨['A'], 0, 0, 0, 1⟩], [], [(['A'], some 0)],
            [(1, (['A'], 0))], 1⟩ 1).1.zones :=
  evolve_child_requires_parent _ _ 1 (by decide)

end SpeciesEvolution
